import Mathlib

/-!
Verification of the table-extraction and consolidation utility.

The development shallowly embeds the program's functions:
`col_letter_to_index`, `extract_excel_like_range`, `read_any_table`,
`sanitize_condition_label`, and the module-level batch-processing loop.
Tables are row-major lists of cell values with a list of column names;
Python integer arithmetic is modelled with `Int`, Python list/DataFrame
slicing (`iloc[a:b, c:d]`) with an explicit slice-index normalization
function.  External codec behaviour (pandas CSV/Excel parsing) is treated
as an opaque per-file parse outcome, as the specification places codec
internals out of scope.
-/

/-- The ASCII whitespace characters recognised by Python's `str.strip`
and by the regex class of whitespace characters: space, tab, newline,
carriage return, vertical tab, form feed. -/
def pyIsSpace (c : Char) : Bool :=
  c == ' ' || c == '\t' || c == '\n' || c == '\r' || c == Char.ofNat 11 || c == Char.ofNat 12

/-- Python `str.strip()`: remove leading and trailing whitespace. -/
def stripWs (l : List Char) : List Char :=
  (l.dropWhile pyIsSpace).rdropWhile pyIsSpace

mutual

/-- The regex substitution replacing every maximal run of whitespace
by a single space character, on the character list of the string. -/
def collapseWs : List Char → List Char
  | [] => []
  | c :: cs => if pyIsSpace c then ' ' :: skipRun cs else c :: collapseWs cs

/-- After emitting the single space for a run, skip the rest of the run. -/
def skipRun : List Char → List Char
  | [] => []
  | c :: cs => if pyIsSpace c then skipRun cs else c :: collapseWs cs

end

/-- `sanitize_condition_label` from the source: strip the string, then
collapse every whitespace run to a single space. -/
def sanitize_condition_label (s : String) : String :=
  ⟨collapseWs (stripWs s.data)⟩

/-- The maximal whitespace-free words of a character list, in order
(empty chunks discarded).  Spec-side notion used to state what the
normalizer does. -/
def wordsWs : List Char → List (List Char)
  | [] => []
  | c :: cs =>
    if pyIsSpace c then wordsWs cs
    else (c :: cs.takeWhile (fun x => !(pyIsSpace x))) ::
      wordsWs (cs.dropWhile (fun x => !(pyIsSpace x)))
termination_by l => l.length
decreasing_by
  · simp only [List.length_cons]; omega
  · simp only [List.length_cons]
    have := (List.dropWhile_sublist (l := cs) (fun x => !(pyIsSpace x))).length_le
    omega

/-- Join words with single spaces. -/
def joinWords : List (List Char) → List Char
  | [] => []
  | [w] => w
  | w :: ws => w ++ ' ' :: joinWords ws

/-- The specification's description of name normalization: the string
with leading and trailing whitespace removed and every internal run of
whitespace collapsed to one space, i.e. its whitespace-separated words
joined by single spaces. -/
def specNormalize (s : String) : String :=
  ⟨joinWords (wordsWs s.data)⟩

/-- `col_letter_to_index` from the source: strip and uppercase the
letter string, fold `idx = idx * 26 + (ord(ch) - ord('A') + 1)` over its
characters, and subtract 1. -/
def col_letter_to_index (letter : String) : Int :=
  let l := (stripWs letter.data).map Char.toUpper
  (l.foldl (fun idx ch => idx * 26 + ((ch.toNat : Int) - ('A'.toNat : Int) + 1)) 0) - 1

/-- Spec-side value of a letter string read as a bijective base-26
numeral with digit values 1..26 (A=1, ..., Z=26), most significant
letter first. -/
def bijBase26 : List Char → Int
  | [] => 0
  | c :: cs => ((c.toNat : Int) - ('A'.toNat : Int) + 1) * (26 : Int) ^ cs.length + bijBase26 cs

/-- Normalization of one Python slice bound for a sequence of length
`n` (step 1): negative bounds count from the end and everything is
clamped into `[0, n]`. -/
def pySliceIdx (i : Int) (n : Nat) : Nat :=
  if i < 0 then (i + n).toNat else min i.toNat n

/-- Python slice `xs[lo:hi]` (step 1) on a list. -/
def pySlice (lo hi : Int) (xs : List α) : List α :=
  (xs.drop (pySliceIdx lo xs.length)).take (pySliceIdx hi xs.length - pySliceIdx lo xs.length)

/-- A rectangular table: ordered column names and row-major cell values.
Models the pandas DataFrame as far as the program observes it. -/
structure Table (V : Type) where
  cols : List String
  rows : List (List V)
deriving DecidableEq, Repr

/-- `extract_excel_like_range` from the source: convert the column
letters to 0-based indices, convert the Excel row numbers to 0-based
offsets (subtracting 2 when row 1 is a header, else 1), and take
`df.iloc[r0:r1+1, c0:c1+1]`. -/
def extract_excel_like_range (df : Table V) (col_start col_end : String)
    (row_start row_end : Int) (header_in_row1 : Bool) : Table V :=
  let c0 := col_letter_to_index col_start
  let c1 := col_letter_to_index col_end
  let offset : Int := if header_in_row1 then 2 else 1
  let r0 := row_start - offset
  let r1 := row_end - offset
  { cols := pySlice c0 (c1 + 1) df.cols
    rows := (pySlice r0 (r1 + 1) df.rows).map (fun row => pySlice c0 (c1 + 1) row) }

/-- Python `str.lower()` (character-wise lowering). -/
def pyLower (s : String) : String :=
  ⟨s.data.map Char.toLower⟩

/-- Python `str.endswith(suffix)`: the suffix relation on the strings'
characters. -/
def pyEndsWith (s suffixStr : String) : Bool :=
  suffixStr.data.isSuffixOf s.data

/-- How a recognised file is to be parsed: as delimited text with a
given encoding, or as a workbook with a given sheet index and engine.
The parsing itself is delegated to the external library. -/
inductive ReadMethod
  | csvRead (encoding : String)
  | excelRead (sheetIndex : Nat) (engine : String)
deriving DecidableEq, Repr

deriving instance DecidableEq for Except

/-- An uploaded file: its declared name, and the outcome of handing its
bytes to the external parser (out of scope here, hence opaque). -/
structure UploadFile (V : Type) where
  name : String
  parsed : Except String (Table V)
deriving DecidableEq

/-- The suffix dispatch of `read_any_table` from the source: lower-case
the name; `.csv`/`.txt` are read as CSV with encoding `utf-8-sig`;
`.xlsx`/`.xlsm`/`.xls` are read as a workbook, first sheet, engine
`openpyxl`; anything else raises `Formato não suportado: <name>`. -/
def read_dispatch (name : String) : Except String ReadMethod :=
  let n := pyLower name
  if pyEndsWith n ".csv" || pyEndsWith n ".txt" then .ok (.csvRead "utf-8-sig")
  else if pyEndsWith n ".xlsx" || pyEndsWith n ".xlsm" || pyEndsWith n ".xls" then
    .ok (.excelRead 0 "openpyxl")
  else .error ("Formato não suportado: " ++ name)

/-- `read_any_table` from the source: dispatch on the file-name suffix
and, for a recognised suffix, return whatever the external parser
produced for the file. -/
def read_any_table (f : UploadFile V) : Except String (Table V) :=
  match read_dispatch f.name with
  | .ok _ => f.parsed
  | .error e => .error e

/-- A cell of the consolidated wide table: either an inserted provenance
string (condition label or block label) or an original cell value. -/
inductive PCell (V : Type)
  | str (s : String)
  | val (v : V)
deriving DecidableEq, Repr

/-- A table of plain values viewed with the provenance cell type (the
copied block before any column is inserted). -/
def asPCells (t : Table V) : Table (PCell V) :=
  { cols := t.cols, rows := t.rows.map (fun r => r.map .val) }

/-- `pandas.DataFrame.insert(loc, name, scalar)` with the default
`allow_duplicates=False`: raises `ValueError: cannot insert <name>,
already exists` when the column name is already present, otherwise
inserts the column at position `loc` with the scalar broadcast to every
row. -/
def insertTag (loc : Nat) (name tagVal : String) (t : Table (PCell V)) :
    Except String (Table (PCell V)) :=
  if t.cols.contains name then .error ("cannot insert " ++ name ++ ", already exists")
  else .ok { cols := t.cols.insertIdx loc name
             rows := t.rows.map (fun r => r.insertIdx loc (.str tagVal)) }

/-- `b.insert(0, "Condition", cond)` followed by
`b.insert(1, "Block", blockName)` on a copy of block `t`: either the
`ValueError` of the first insert that finds its column name already
present, or the block with the two provenance columns as its first two
columns, the labels broadcast to every row. -/
def tagBlock (cond blockName : String) (t : Table V) :
    Except String (Table (PCell V)) :=
  match insertTag 0 "Condition" cond (asPCells t) with
  | .error e => .error e
  | .ok b => insertTag 1 "Block" blockName b

/-- The check `pandas.melt(..., value_name="Value")` performs before
reshaping: it raises when `Value` is already a column of the input
frame (the block plus the added `__row__` column, whose name cannot be
`Value`). -/
def meltCheck (t : Table V) : Option String :=
  if t.cols.contains "Value" then
    some "value_name (Value) cannot match an element in the DataFrame columns."
  else none

/-- The part of the per-file `try` block after a successful read, with
its incremental effect on `results_wide`: extract F2:H6 and L2:S6,
insert the provenance columns into each block and append it, then melt
each block for the long format.  The first raised exception ends the
block; wide blocks appended before it stay appended.  Returns the wide
blocks contributed and the recorded error message, if any. -/
def processBlocks (hdr : Bool) (cond : String) (df : Table V) :
    List (Table (PCell V)) × Option String :=
  let block1 := extract_excel_like_range df "F" "H" 2 6 hdr
  let block2 := extract_excel_like_range df "L" "S" 2 6 hdr
  match tagBlock cond "F2:H6" block1 with
  | .error e => ([], some e)
  | .ok b1 =>
    match tagBlock cond "L2:S6" block2 with
    | .error e => ([b1], some e)
    | .ok b2 =>
      match meltCheck block1 with
      | some e => ([b1, b2], some e)
      | none =>
        match meltCheck block2 with
        | some e => ([b1, b2], some e)
        | none => ([b1, b2], none)

/-- The whole per-file `try` block: read the table, then run the
extraction/tagging/melting body; the first raised exception is caught
by the `except` clause and recorded.  Returns the wide blocks this
file contributed and the recorded error message, if any. -/
def processFile (hdr : Bool) (cond : String) (f : UploadFile V) :
    List (Table (PCell V)) × Option String :=
  match read_any_table f with
  | .error e => ([], some e)
  | .ok df => processBlocks hdr cond df

/-- The module-level processing loop over `uploaded_by_condition.items()`:
skip absent uploads, append whatever wide blocks the file's try block
produced to `results_wide`, and append `(cond, file name, message)` to
`errors` when it raised, continuing with the remaining files. -/
def processBatch (hdr : Bool) (uploads : List (String × Option (UploadFile V))) :
    List (Table (PCell V)) × List (String × String × String) :=
  uploads.foldl (fun acc p =>
    match p.2 with
    | none => acc
    | some f =>
      (acc.1 ++ (processFile hdr p.1 f).1,
       acc.2 ++ ((processFile hdr p.1 f).2.map (fun e => (p.1, f.name, e))).toList))
    ([], [])

/-- The wide blocks contributed by a single upload entry: none when the
upload is absent, else whatever the file's try block appended before
completing or raising. -/
def fileBlocks (hdr : Bool) (p : String × Option (UploadFile V)) : List (Table (PCell V)) :=
  match p.2 with
  | none => []
  | some f => (processFile hdr p.1 f).1

/-- The error record contributed by a single upload entry, if any. -/
def fileError (hdr : Bool) (p : String × Option (UploadFile V)) :
    Option (String × String × String) :=
  match p.2 with
  | none => none
  | some f => (processFile hdr p.1 f).2.map (fun e => (p.1, f.name, e))

/-- The rows of `pd.concat(results_wide, ignore_index=True)`: the rows
of the accumulated blocks, one block after the other, in list order. -/
def consolidatedRows (blocks : List (Table V)) : List (List V) :=
  (blocks.map Table.rows).flatten

/-- The index of the last column whose (normalized) name matches the
target, if any: the mapping built from a table's columns where a later
duplicate overwrites an earlier one. -/
def lastMatchIdx (names : List String) (target : String) : Option Nat :=
  ((names.enum.filter (fun p => p.2 = target)).getLast?).map (·.1)

/-- Modelled from the spec: the NamedColumnExtractor component (spec
§4.3) is not present under `src/`; this follows the spec's algorithm.
Build a normalized-name lookup for the table's columns (last occurrence
wins), collect every required name whose normalized form is absent, fail
with the full missing list, and otherwise return the table of the
required columns in the required order, renamed to the requested names,
with row values copied unchanged. -/
def extract_named_columns [Inhabited V] (t : Table V) (required : List String) :
    Except (List String) (Table V) :=
  let normCols := t.cols.map sanitize_condition_label
  let missing := required.filter
    (fun r => !(normCols.contains (sanitize_condition_label r)))
  if missing.isEmpty then
    .ok { cols := required
          rows := t.rows.map (fun row => required.map (fun r =>
            match lastMatchIdx normCols (sanitize_condition_label r) with
            | some i => row.getD i default
            | none => default)) }
  else .error missing

lemma stripWs_eq_self {l : List Char} (h : ∀ c ∈ l, pyIsSpace c = false) :
    stripWs l = l := by
  unfold stripWs
  have h1 : l.dropWhile pyIsSpace = l := by
    cases l with
    | nil => rfl
    | cons c cs =>
      rw [List.dropWhile_cons, if_neg]
      simp [h c (List.mem_cons_self c cs)]
  rw [h1, List.rdropWhile_eq_self_iff]
  intro hl
  simp [h _ (List.getLast_mem hl)]

lemma toUpper_eq_self_of_upper {c : Char} (h1 : 65 ≤ c.toNat) (h2 : c.toNat ≤ 90) :
    c.toUpper = c := by
  have hne : ¬(c.toNat ≥ 97 ∧ c.toNat ≤ 122) := by omega
  simp only [Char.toUpper]
  rw [if_neg hne]

lemma foldl_horner (l : List Char) :
    ∀ acc : Int,
      l.foldl (fun idx ch => idx * 26 + ((ch.toNat : Int) - 65 + 1)) acc =
        acc * (26 : Int) ^ l.length + bijBase26 l := by
  induction l with
  | nil => intro acc; simp [bijBase26]
  | cons c cs ih =>
    intro acc
    simp only [List.foldl_cons, List.length_cons, bijBase26, ih]
    have hA : ('A'.toNat : Int) = 65 := by decide
    rw [hA]
    ring


/-- C1: for every non-empty string of uppercase letters, the
column-letter-to-index conversion returns the value of the string read
as a bijective base-26 numeral with digit values 1..26, minus 1 (the
zero-based spreadsheet column index). -/
theorem col_letter_to_index_spec (s : String) (hne : s.data ≠ [])
    (hletters : ∀ c ∈ s.data, 65 ≤ c.toNat ∧ c.toNat ≤ 90) :
    col_letter_to_index s = bijBase26 s.data - 1 := by
  unfold col_letter_to_index
  have hnospace : ∀ c ∈ s.data, pyIsSpace c = false := by
    intro c hc
    have hb := hletters c hc
    by_contra hsp
    have hsp' : pyIsSpace c = true := by simpa using hsp
    unfold pyIsSpace at hsp'
    simp only [Bool.or_eq_true, beq_iff_eq] at hsp'
    rcases hsp' with ((((h | h) | h) | h) | h) | h <;> subst h <;>
      exact absurd hb (by decide)
  rw [stripWs_eq_self hnospace]
  have hup : s.data.map Char.toUpper = s.data := by
    have := List.map_congr_left (l := s.data) (f := Char.toUpper) (g := id)
      (fun c hc => toUpper_eq_self_of_upper (hletters c hc).1 (hletters c hc).2)
    rw [this, List.map_id]
  rw [hup]
  simp [foldl_horner]

/-- Witness for C1 at the concrete inputs of the claim. -/
theorem col_letter_to_index_spec_witness :
    ("BA".data ≠ [] ∧ ∀ c ∈ "BA".data, 65 ≤ c.toNat ∧ c.toNat ≤ 90) ∧
    col_letter_to_index "BA" = bijBase26 "BA".data - 1 ∧
    col_letter_to_index "A" = 0 ∧ col_letter_to_index "B" = 1 ∧
    col_letter_to_index "Z" = 25 ∧ col_letter_to_index "AA" = 26 ∧
    col_letter_to_index "AZ" = 51 ∧ col_letter_to_index "BA" = 52 :=
  ⟨⟨by decide, by decide⟩,
   col_letter_to_index_spec "BA" (by decide) (by decide),
   by decide, by decide, by decide, by decide, by decide, by decide⟩

lemma pySliceIdx_le (i : Int) (n : Nat) : pySliceIdx i n ≤ n := by
  unfold pySliceIdx
  split <;> omega

lemma pySliceIdx_of_nonneg {i : Int} {n : Nat} (h0 : 0 ≤ i) (h1 : i ≤ (n : Int)) :
    pySliceIdx i n = i.toNat := by
  unfold pySliceIdx
  rw [if_neg (by omega)]
  omega

lemma pySliceIdx_of_ge {i : Int} {n : Nat} (h : (n : Int) ≤ i) :
    pySliceIdx i n = n := by
  unfold pySliceIdx
  rw [if_neg (by omega)]
  omega

lemma pySlice_length (lo hi : Int) (xs : List α) :
    (pySlice lo hi xs).length = pySliceIdx hi xs.length - pySliceIdx lo xs.length := by
  unfold pySlice
  rw [List.length_take, List.length_drop]
  have h1 := pySliceIdx_le hi xs.length
  have h2 := pySliceIdx_le lo xs.length
  omega

lemma pySlice_eq_drop_take {lo hi : Int} (xs : List α) (h0 : 0 ≤ lo) (h1 : lo ≤ hi)
    (h2 : hi ≤ (xs.length : Int)) :
    pySlice lo hi xs = (xs.drop lo.toNat).take (hi.toNat - lo.toNat) := by
  unfold pySlice
  rw [pySliceIdx_of_nonneg h0 (by omega), pySliceIdx_of_nonneg (by omega) h2]

lemma pySlice_mem {xs : List α} {x : α} (h : x ∈ pySlice lo hi xs) : x ∈ xs :=
  List.mem_of_mem_drop (List.mem_of_mem_take h)

lemma pySlice_getElem? (lo hi : Int) (xs : List α) (i : Nat) {v : α}
    (h : (pySlice lo hi xs)[i]? = some v) :
    xs[pySliceIdx lo xs.length + i]? = some v := by
  unfold pySlice at h
  rw [List.getElem?_take] at h
  split at h
  · rwa [List.getElem?_drop] at h
  · exact absurd h (by simp)

lemma extract_cols_def (df : Table V) (colS colE : String) (rowS rowE : Int) (hdr : Bool) :
    (extract_excel_like_range df colS colE rowS rowE hdr).cols =
      pySlice (col_letter_to_index colS) (col_letter_to_index colE + 1) df.cols := rfl

lemma extract_rows_def (df : Table V) (colS colE : String) (rowS rowE : Int) (hdr : Bool) :
    (extract_excel_like_range df colS colE rowS rowE hdr).rows =
      (pySlice (rowS - (if hdr then 2 else 1)) (rowE - (if hdr then 2 else 1) + 1)
        df.rows).map
        (fun row => pySlice (col_letter_to_index colS) (col_letter_to_index colE + 1) row) :=
  rfl

/-- C2: for a range whose converted offsets lie inside the table, the
extraction subtracts 2 from each 1-based row number when a header is
present (else 1), and returns exactly the rows from the start offset to
the end offset inclusive and the columns from the start index to the
end index inclusive. -/
theorem extract_excel_like_range_in_bounds_spec (df : Table V) (colS colE : String)
    (rowS rowE : Int) (hdr : Bool) (c0 c1 off : Int)
    (hc0 : col_letter_to_index colS = c0) (hc1 : col_letter_to_index colE = c1)
    (hoff : off = if hdr then 2 else 1)
    (hr0 : 0 ≤ rowS - off) (hrr : rowS ≤ rowE)
    (hr1 : rowE - off < (df.rows.length : Int))
    (hcc0 : 0 ≤ c0) (hcc : c0 ≤ c1) (hc1b : c1 < (df.cols.length : Int))
    (hrect : ∀ r ∈ df.rows, r.length = df.cols.length)
    (R : Table V) (hR : R = extract_excel_like_range df colS colE rowS rowE hdr) :
    R.cols = (df.cols.drop c0.toNat).take (c1.toNat - c0.toNat + 1) ∧
    R.rows = ((df.rows.drop (rowS - off).toNat).take
        ((rowE - off).toNat - (rowS - off).toNat + 1)).map
      (fun r => (r.drop c0.toNat).take (c1.toNat - c0.toNat + 1)) ∧
    R.rows.length = (rowE - rowS + 1).toNat ∧
    (∀ r ∈ R.rows, r.length = (c1 - c0 + 1).toNat) := by
  subst hR hc0 hc1 hoff
  refine ⟨?_, ?_, ?_, ?_⟩
  · rw [extract_cols_def, pySlice_eq_drop_take df.cols hcc0 (by omega) (by omega)]
    congr 1
    omega
  · rw [extract_rows_def, pySlice_eq_drop_take df.rows hr0 (by omega) (by omega)]
    have hcount : (rowE - (if hdr then 2 else 1) + 1).toNat -
        (rowS - (if hdr then 2 else 1)).toNat =
        (rowE - (if hdr then 2 else 1)).toNat -
          (rowS - (if hdr then 2 else 1)).toNat + 1 := by omega
    rw [hcount]
    apply List.map_congr_left
    intro r hmem
    have hrlen : r.length = df.cols.length := by
      apply hrect
      exact List.mem_of_mem_drop (List.mem_of_mem_take hmem)
    rw [pySlice_eq_drop_take r hcc0 (by omega) (by omega)]
    congr 1
    omega
  · rw [extract_rows_def, List.length_map, pySlice_length,
      pySliceIdx_of_nonneg hr0 (by omega), pySliceIdx_of_nonneg (by omega) (by omega)]
    omega
  · intro r hmem
    rw [extract_rows_def] at hmem
    rcases List.mem_map.mp hmem with ⟨src, hsrc, hr⟩
    have hsrclen : src.length = df.cols.length := hrect src (pySlice_mem hsrc)
    rw [← hr, pySlice_length,
      pySliceIdx_of_nonneg hcc0 (by omega), pySliceIdx_of_nonneg (by omega) (by omega)]
    omega

/-- Witness for C2: extracting F2:H6 with a header from a 6x9 table of
numbers equals reading row positions 0..4 and column positions 5..7. -/
theorem extract_excel_like_range_in_bounds_spec_witness :
    (extract_excel_like_range
        (Table.mk ["c0", "c1", "c2", "c3", "c4", "c5", "c6", "c7", "c8"]
          [[10, 11, 12, 13, 14, 15, 16, 17, 18],
           [20, 21, 22, 23, 24, 25, 26, 27, 28],
           [30, 31, 32, 33, 34, 35, 36, 37, 38],
           [40, 41, 42, 43, 44, 45, 46, 47, 48],
           [50, 51, 52, 53, 54, 55, 56, 57, 58],
           [60, 61, 62, 63, 64, 65, 66, 67, 68]])
        "F" "H" 2 6 true).rows =
      List.map (fun r => (r.drop 5).take 3)
        ((([[10, 11, 12, 13, 14, 15, 16, 17, 18],
            [20, 21, 22, 23, 24, 25, 26, 27, 28],
            [30, 31, 32, 33, 34, 35, 36, 37, 38],
            [40, 41, 42, 43, 44, 45, 46, 47, 48],
            [50, 51, 52, 53, 54, 55, 56, 57, 58],
            [60, 61, 62, 63, 64, 65, 66, 67, 68]] : List (List Int)).drop 0).take 5) :=
  (extract_excel_like_range_in_bounds_spec
    (Table.mk ["c0", "c1", "c2", "c3", "c4", "c5", "c6", "c7", "c8"]
      [[10, 11, 12, 13, 14, 15, 16, 17, 18],
       [20, 21, 22, 23, 24, 25, 26, 27, 28],
       [30, 31, 32, 33, 34, 35, 36, 37, 38],
       [40, 41, 42, 43, 44, 45, 46, 47, 48],
       [50, 51, 52, 53, 54, 55, 56, 57, 58],
       [60, 61, 62, 63, 64, 65, 66, 67, 68]])
    "F" "H" 2 6 true 5 7 2 (by decide) (by decide) (by decide) (by decide) (by decide)
    (by decide) (by decide) (by decide) (by decide) (by decide) _ rfl).2.1

lemma pySliceIdx_nonneg_eq (i : Int) (n : Nat) (h : 0 ≤ i) :
    pySliceIdx i n = min i.toNat n := by
  unfold pySliceIdx
  rw [if_neg (by omega)]

/-- C3: range extraction is a total function on tables (it returns a
table, never an error), and coordinates beyond the table's extent yield
a block with fewer rows and/or columns than requested, possibly empty:
the result never has more rows/columns than the table; when the end row
offset reaches past the last row the result has strictly fewer rows than
the requested count; when the start row offset reaches past the last row
the result is empty; and likewise for columns. -/
theorem extract_excel_like_range_total_spec (df : Table V) (colS colE : String)
    (rowS rowE : Int) (hdr : Bool) (c0 c1 off : Int)
    (hc0 : col_letter_to_index colS = c0) (hc1 : col_letter_to_index colE = c1)
    (hoff : off = if hdr then 2 else 1)
    (R : Table V) (hR : R = extract_excel_like_range df colS colE rowS rowE hdr) :
    R.rows.length ≤ df.rows.length ∧
    R.cols.length ≤ df.cols.length ∧
    (0 ≤ rowS - off → rowS ≤ rowE → (df.rows.length : Int) ≤ rowE - off →
      (R.rows.length : Int) < rowE - rowS + 1) ∧
    (0 ≤ rowS - off → (df.rows.length : Int) ≤ rowS - off → R.rows = []) ∧
    (0 ≤ c0 → c0 ≤ c1 → (df.cols.length : Int) ≤ c1 →
      (R.cols.length : Int) < c1 - c0 + 1) ∧
    (0 ≤ c0 → (df.cols.length : Int) ≤ c0 → R.cols = []) := by
  subst hR hc0 hc1 hoff
  have hrows : (extract_excel_like_range df colS colE rowS rowE hdr).rows.length =
      pySliceIdx (rowE - (if hdr then 2 else 1) + 1) df.rows.length -
        pySliceIdx (rowS - (if hdr then 2 else 1)) df.rows.length := by
    rw [extract_rows_def, List.length_map, pySlice_length]
  have hcols : (extract_excel_like_range df colS colE rowS rowE hdr).cols.length =
      pySliceIdx (col_letter_to_index colE + 1) df.cols.length -
        pySliceIdx (col_letter_to_index colS) df.cols.length := by
    rw [extract_cols_def, pySlice_length]
  refine ⟨?_, ?_, ?_, ?_, ?_, ?_⟩
  · rw [hrows]
    have := pySliceIdx_le (rowE - (if hdr then 2 else 1) + 1) df.rows.length
    omega
  · rw [hcols]
    have := pySliceIdx_le (col_letter_to_index colE + 1) df.cols.length
    omega
  · intro h1 h2 h3
    have e1 : pySliceIdx (rowE - (if hdr then 2 else 1) + 1) df.rows.length =
        df.rows.length := pySliceIdx_of_ge (by omega)
    have e2 : pySliceIdx (rowS - (if hdr then 2 else 1)) df.rows.length =
        min (rowS - (if hdr then 2 else 1)).toNat df.rows.length :=
      pySliceIdx_nonneg_eq _ _ h1
    rw [hrows, e1, e2]
    omega
  · intro h1 h2
    apply List.eq_nil_of_length_eq_zero
    have e1 := pySliceIdx_le (rowE - (if hdr then 2 else 1) + 1) df.rows.length
    have e2 : pySliceIdx (rowS - (if hdr then 2 else 1)) df.rows.length =
        df.rows.length := pySliceIdx_of_ge (by omega)
    rw [hrows, e2]
    omega
  · intro h1 h2 h3
    have e1 : pySliceIdx (col_letter_to_index colE + 1) df.cols.length =
        df.cols.length := pySliceIdx_of_ge (by omega)
    have e2 : pySliceIdx (col_letter_to_index colS) df.cols.length =
        min (col_letter_to_index colS).toNat df.cols.length :=
      pySliceIdx_nonneg_eq _ _ h1
    rw [hcols, e1, e2]
    omega
  · intro h1 h2
    apply List.eq_nil_of_length_eq_zero
    have e1 := pySliceIdx_le (col_letter_to_index colE + 1) df.cols.length
    have e2 : pySliceIdx (col_letter_to_index colS) df.cols.length =
        df.cols.length := pySliceIdx_of_ge (by omega)
    rw [hcols, e2]
    omega

/-- Witness for C3: requesting rows 2..6 of a table with only 2 data
rows yields 2 rows (fewer than the 5 requested), not an error. -/
theorem extract_excel_like_range_total_spec_witness :
    ((extract_excel_like_range
        (Table.mk ["a", "b"] [[1, 2], [3, 4]]) "A" "B" 2 6 true).rows.length : Int) <
      6 - 2 + 1 :=
  ((extract_excel_like_range_total_spec
      (Table.mk ["a", "b"] ([[1, 2], [3, 4]] : List (List Int))) "A" "B" 2 6 true
      0 1 2 (by decide) (by decide) (by decide) _ rfl).2.2.1)
    (by decide) (by decide) (by decide)

/-- C4: the sub-table returned by range extraction keeps, at each
selected column position, the source table's column name at that
position (no renaming), and each of its cells equals the source table's
cell at the corresponding selected position, unchanged. -/
theorem extract_excel_like_range_frame_spec (df : Table V) (colS colE : String)
    (rowS rowE : Int) (hdr : Bool)
    (hrect : ∀ r ∈ df.rows, r.length = df.cols.length)
    (R : Table V) (hR : R = extract_excel_like_range df colS colE rowS rowE hdr) :
    (∀ i nm, R.cols[i]? = some nm →
      df.cols[pySliceIdx (col_letter_to_index colS) df.cols.length + i]? = some nm) ∧
    (∀ i j v, ((R.rows[i]?).bind fun r => r[j]?) = some v →
      ((df.rows[pySliceIdx (rowS - (if hdr then 2 else 1)) df.rows.length + i]?).bind
        fun r => r[pySliceIdx (col_letter_to_index colS) df.cols.length + j]?) = some v) := by
  subst hR
  constructor
  · intro i nm h
    rw [extract_cols_def] at h
    exact pySlice_getElem? _ _ _ _ h
  · intro i j v h
    rw [extract_rows_def] at h
    rcases hrow : ((pySlice (rowS - (if hdr then 2 else 1))
        (rowE - (if hdr then 2 else 1) + 1) df.rows).map
        (fun row => pySlice (col_letter_to_index colS) (col_letter_to_index colE + 1)
          row))[i]? with _ | r'
    · rw [hrow] at h
      simp at h
    · rw [hrow] at h
      simp only [Option.some_bind] at h
      rw [List.getElem?_map] at hrow
      rcases hsrc : (pySlice (rowS - (if hdr then 2 else 1))
          (rowE - (if hdr then 2 else 1) + 1) df.rows)[i]? with _ | src
      · rw [hsrc] at hrow
        simp at hrow
      · rw [hsrc] at hrow
        simp only [Option.map_some'] at hrow
        have hdfrow := pySlice_getElem? _ _ _ _ hsrc
        rw [hdfrow]
        simp only [Option.some_bind]
        have hsrcmem : src ∈ df.rows := by
          apply pySlice_mem
          exact List.getElem?_mem hsrc
        have hsrclen : src.length = df.cols.length := hrect src hsrcmem
        have := pySlice_getElem? (col_letter_to_index colS)
          (col_letter_to_index colE + 1) src j (by rw [Option.some.inj hrow]; exact h)
        rwa [hsrclen] at this

/-- Witness for C4: a concrete cell of an extracted block equals the
source cell at the selected position. -/
theorem extract_excel_like_range_frame_spec_witness :
    ((((Table.mk ["a", "b", "c"]
        ([[1, 2, 3], [4, 5, 6], [7, 8, 9]] : List (List Int))).rows[1]?).bind
      fun r => r[1]?) = some 5) :=
  (extract_excel_like_range_frame_spec
    (Table.mk ["a", "b", "c"] ([[1, 2, 3], [4, 5, 6], [7, 8, 9]] : List (List Int)))
    "B" "C" 2 3 true (by decide) _ rfl).2 1 0 5 (by decide)

/-- C6: the table reader accepts exactly the suffixes `.csv`/`.txt`
(read as delimited text, encoding `utf-8-sig`) and `.xlsx`/`.xlsm`/`.xls`
(read as a workbook, first sheet), comparing case-insensitively, and for
any other name it fails with an unsupported-format error whose message
names the offending file. -/
theorem read_any_table_suffix_spec {V : Type} (f : UploadFile V) :
    (read_dispatch f.name = .ok (.csvRead "utf-8-sig") ↔
      (pyEndsWith (pyLower f.name) ".csv" || pyEndsWith (pyLower f.name) ".txt") = true) ∧
    (read_dispatch f.name = .ok (.excelRead 0 "openpyxl") ↔
      ((pyEndsWith (pyLower f.name) ".csv" || pyEndsWith (pyLower f.name) ".txt") = false ∧
       (pyEndsWith (pyLower f.name) ".xlsx" || pyEndsWith (pyLower f.name) ".xlsm" ||
         pyEndsWith (pyLower f.name) ".xls") = true)) ∧
    (∀ m, read_dispatch f.name = .ok m → read_any_table f = f.parsed) ∧
    (((pyEndsWith (pyLower f.name) ".csv" || pyEndsWith (pyLower f.name) ".txt") = false ∧
      (pyEndsWith (pyLower f.name) ".xlsx" || pyEndsWith (pyLower f.name) ".xlsm" ||
        pyEndsWith (pyLower f.name) ".xls") = false) →
      read_any_table f = .error ("Formato não suportado: " ++ f.name)) := by
  by_cases h1 :
      (pyEndsWith (pyLower f.name) ".csv" || pyEndsWith (pyLower f.name) ".txt") = true
  · simp [read_any_table, read_dispatch, h1]
  · by_cases h2 :
        (pyEndsWith (pyLower f.name) ".xlsx" || pyEndsWith (pyLower f.name) ".xlsm" ||
          pyEndsWith (pyLower f.name) ".xls") = true
    · simp [read_any_table, read_dispatch, h1, h2]
    · simp [read_any_table, read_dispatch, h1, h2]

/-- Witness for C6: a `.pdf` file is rejected with a message naming the
file, and a `.CSV` file is accepted as delimited text. -/
theorem read_any_table_suffix_spec_witness :
    read_any_table (UploadFile.mk "a.pdf" (.ok (Table.mk [] ([] : List (List Nat))))) =
      .error "Formato não suportado: a.pdf" ∧
    read_dispatch "A.CSV" = .ok (.csvRead "utf-8-sig") :=
  ⟨(read_any_table_suffix_spec
      (UploadFile.mk "a.pdf" (.ok (Table.mk [] ([] : List (List Nat)))))).2.2.2
    ⟨by decide, by decide⟩,
   by decide⟩

lemma contains_iff_mem_str (l : List String) (x : String) :
    l.contains x = true ↔ x ∈ l := by
  simp [List.contains_iff_exists_mem_beq, beq_iff_eq]

lemma tagBlock_ok_of_no_clash {V : Type} (cond blockName : String) (t : Table V)
    (h1 : "Condition" ∉ t.cols) (h2 : "Block" ∉ t.cols) :
    tagBlock cond blockName t = .ok
      (Table.mk ("Condition" :: "Block" :: t.cols)
        (t.rows.map (fun r => PCell.str cond :: PCell.str blockName :: r.map PCell.val))) := by
  have e1 : insertTag 0 "Condition" cond (asPCells t) = .ok
      (Table.mk ("Condition" :: t.cols)
        (t.rows.map (fun r => PCell.str cond :: r.map PCell.val))) := by
    unfold insertTag
    simp only [asPCells]
    rw [if_neg (fun hc => h1 ((contains_iff_mem_str t.cols "Condition").mp hc))]
    simp only [List.map_map]
    rfl
  have e2 : insertTag 1 "Block" blockName
      (Table.mk ("Condition" :: t.cols)
        (t.rows.map (fun r => PCell.str cond :: r.map PCell.val))) = .ok
      (Table.mk ("Condition" :: "Block" :: t.cols)
        (t.rows.map (fun r => PCell.str cond :: PCell.str blockName :: r.map PCell.val))) := by
    unfold insertTag
    rw [if_neg]
    · simp only [List.map_map]
      rfl
    · intro hc
      rcases List.mem_cons.mp ((contains_iff_mem_str _ _).mp hc) with hx | hx
      · exact absurd hx (by decide)
      · exact h2 hx
  unfold tagBlock
  rw [e1]
  exact e2

lemma insertTag_ok_rows {V : Type} {loc : Nat} {name tagVal : String}
    {t b : Table (PCell V)} (h : insertTag loc name tagVal t = .ok b) :
    b.rows = t.rows.map (fun r => r.insertIdx loc (PCell.str tagVal)) := by
  unfold insertTag at h
  by_cases hc : t.cols.contains name = true
  · rw [if_pos hc] at h
    exact absurd h (by simp)
  · rw [if_neg hc] at h
    rw [← Except.ok.inj h]

lemma tagBlock_ok_rows_head {V : Type} {cond blockName : String} {t : Table V}
    {b : Table (PCell V)} (h : tagBlock cond blockName t = .ok b) :
    ∀ r ∈ b.rows, r.head? = some (PCell.str cond) := by
  unfold tagBlock at h
  rcases h1 : insertTag 0 "Condition" cond (asPCells t) with e | b1
  · rw [h1] at h
    exact absurd h (by simp)
  · rw [h1] at h
    have h2 : insertTag 1 "Block" blockName b1 = .ok b := h
    have hb1 := insertTag_ok_rows h1
    have hb := insertTag_ok_rows h2
    intro r hr
    rw [hb, hb1] at hr
    simp only [asPCells, List.map_map, List.mem_map] at hr
    rcases hr with ⟨src, _, hsrc⟩
    rw [← hsrc]
    rfl

lemma processFile_read_err {V : Type} {hdr : Bool} {cond : String} {f : UploadFile V}
    {e : String} (h : read_any_table f = .error e) :
    processFile hdr cond f = ([], some e) := by
  unfold processFile
  rw [h]

lemma processFile_read_ok {V : Type} {hdr : Bool} {cond : String} {f : UploadFile V}
    {df : Table V} (h : read_any_table f = .ok df) :
    processFile hdr cond f = processBlocks hdr cond df := by
  unfold processFile
  rw [h]

lemma processBlocks_mem_tagged {V : Type} (hdr : Bool) (cond : String) (df : Table V) :
    ∀ t ∈ (processBlocks hdr cond df).1, ∀ r ∈ t.rows,
      r.head? = some (PCell.str cond) := by
  intro t ht
  simp only [processBlocks] at ht
  rcases h1 : tagBlock cond "F2:H6" (extract_excel_like_range df "F" "H" 2 6 hdr)
    with e | b1
  · rw [h1] at ht
    exact absurd ht (by simp)
  · rw [h1] at ht
    rcases h2 : tagBlock cond "L2:S6" (extract_excel_like_range df "L" "S" 2 6 hdr)
      with e | b2
    · rw [h2] at ht
      have ht' : t ∈ [b1] := ht
      rw [List.mem_singleton] at ht'
      subst ht'
      exact tagBlock_ok_rows_head h1
    · rw [h2] at ht
      have hmem : t ∈ [b1, b2] := by
        rcases hm1 : meltCheck (extract_excel_like_range df "F" "H" 2 6 hdr)
          with _ | e1
        · rw [hm1] at ht
          rcases hm2 : meltCheck (extract_excel_like_range df "L" "S" 2 6 hdr)
            with _ | e2
          · rw [hm2] at ht
            exact ht
          · rw [hm2] at ht
            exact ht
        · rw [hm1] at ht
          exact ht
      rcases List.mem_cons.mp hmem with h | h
      · subst h
        exact tagBlock_ok_rows_head h1
      · rw [List.mem_singleton] at h
        subst h
        exact tagBlock_ok_rows_head h2

/-- C10 (counterexample): a file that is read successfully but whose
extracted F2:H6 block already contains a column named `Condition`
appends no blocks at all: `b1.insert(0, "Condition", cond)` raises the
duplicate-column ValueError, the except clause records it, and the wide
results receive nothing — refuting the claim that every successfully
read file appends exactly two blocks. -/
theorem processFile_two_blocks_counterexample :
    read_any_table (UploadFile.mk "c.csv" (.ok (Table.mk
        ["a", "b", "c", "d", "e", "Condition", "g", "h"]
        ([[1, 2, 3, 4, 5, 6, 7, 8]] : List (List Nat))))) =
      .ok (Table.mk ["a", "b", "c", "d", "e", "Condition", "g", "h"]
        ([[1, 2, 3, 4, 5, 6, 7, 8]] : List (List Nat))) ∧
    processFile true "Cond_01" (UploadFile.mk "c.csv" (.ok (Table.mk
        ["a", "b", "c", "d", "e", "Condition", "g", "h"]
        ([[1, 2, 3, 4, 5, 6, 7, 8]] : List (List Nat))))) =
      ([], some "cannot insert Condition, already exists") :=
  ⟨by decide, by decide⟩

/-- C10 (amended): for every file that is read successfully and whose
extracted F2:H6 and L2:S6 blocks contain no column already named
`Condition` or `Block`, exactly two blocks are appended to the wide
result — the range F2:H6 and then the range L2:S6 — each with the two
provenance columns inserted as its first two columns: `Condition`
holding the file's condition label and `Block` holding the range
string, broadcast to every row (a later melt failure records an error
but does not remove the appended blocks). -/
theorem processFile_two_blocks_amended_spec {V : Type} (hdr : Bool) (cond : String)
    (f : UploadFile V) (df : Table V) (h : read_any_table f = .ok df)
    (h1 : "Condition" ∉ (extract_excel_like_range df "F" "H" 2 6 hdr).cols)
    (h2 : "Block" ∉ (extract_excel_like_range df "F" "H" 2 6 hdr).cols)
    (h3 : "Condition" ∉ (extract_excel_like_range df "L" "S" 2 6 hdr).cols)
    (h4 : "Block" ∉ (extract_excel_like_range df "L" "S" 2 6 hdr).cols) :
    (processFile hdr cond f).1 =
      [Table.mk
        ("Condition" :: "Block" :: (extract_excel_like_range df "F" "H" 2 6 hdr).cols)
        ((extract_excel_like_range df "F" "H" 2 6 hdr).rows.map
          (fun r => PCell.str cond :: PCell.str "F2:H6" :: r.map PCell.val)),
       Table.mk
        ("Condition" :: "Block" :: (extract_excel_like_range df "L" "S" 2 6 hdr).cols)
        ((extract_excel_like_range df "L" "S" 2 6 hdr).rows.map
          (fun r => PCell.str cond :: PCell.str "L2:S6" :: r.map PCell.val))] := by
  rw [processFile_read_ok h]
  simp only [processBlocks]
  rw [tagBlock_ok_of_no_clash cond "F2:H6" _ h1 h2,
    tagBlock_ok_of_no_clash cond "L2:S6" _ h3 h4]
  rcases hm1 : meltCheck (extract_excel_like_range df "F" "H" 2 6 hdr) with _ | e1
  · rcases hm2 : meltCheck (extract_excel_like_range df "L" "S" 2 6 hdr) with _ | e2
    · rfl
    · rfl
  · rfl

/-- Witness for the amended C10 on a concrete clash-free csv file. -/
theorem processFile_two_blocks_amended_spec_witness :
    (processFile true "Cond_01"
      (UploadFile.mk "m.csv" (.ok (Table.mk ["a"] ([[7]] : List (List Nat)))))).1 =
      [Table.mk
        ("Condition" :: "Block" ::
          (extract_excel_like_range (Table.mk ["a"] ([[7]] : List (List Nat)))
            "F" "H" 2 6 true).cols)
        ((extract_excel_like_range (Table.mk ["a"] ([[7]] : List (List Nat)))
            "F" "H" 2 6 true).rows.map
          (fun r => PCell.str "Cond_01" :: PCell.str "F2:H6" :: r.map PCell.val)),
       Table.mk
        ("Condition" :: "Block" ::
          (extract_excel_like_range (Table.mk ["a"] ([[7]] : List (List Nat)))
            "L" "S" 2 6 true).cols)
        ((extract_excel_like_range (Table.mk ["a"] ([[7]] : List (List Nat)))
            "L" "S" 2 6 true).rows.map
          (fun r => PCell.str "Cond_01" :: PCell.str "L2:S6" :: r.map PCell.val))] :=
  processFile_two_blocks_amended_spec true "Cond_01"
    (UploadFile.mk "m.csv" (.ok (Table.mk ["a"] ([[7]] : List (List Nat)))))
    (Table.mk ["a"] ([[7]] : List (List Nat))) (by decide)
    (by decide) (by decide) (by decide) (by decide)

lemma processBatch_go {V : Type} (hdr : Bool) (ups : List (String × Option (UploadFile V))) :
    ∀ (w : List (Table (PCell V))) (errs : List (String × String × String)),
      ups.foldl (fun acc p =>
        match p.2 with
        | none => acc
        | some f =>
          (acc.1 ++ (processFile hdr p.1 f).1,
           acc.2 ++ ((processFile hdr p.1 f).2.map (fun e => (p.1, f.name, e))).toList))
        (w, errs) =
      (w ++ (ups.map (fileBlocks hdr)).flatten, errs ++ ups.filterMap (fileError hdr)) := by
  induction ups with
  | nil => intro w errs; simp
  | cons p ps ih =>
    intro w errs
    rcases p with ⟨cond, up⟩
    rcases up with _ | f
    · simp only [List.foldl_cons, List.map_cons, List.flatten_cons, List.filterMap_cons]
      rw [ih]
      simp [fileBlocks, fileError]
    · simp only [List.foldl_cons, List.map_cons, List.flatten_cons, List.filterMap_cons]
      rw [ih]
      rcases hpe : (processFile hdr cond f).2 with _ | e
      · simp [fileBlocks, fileError, hpe, List.append_assoc]
      · simp [fileBlocks, fileError, hpe, List.append_assoc]

lemma processBatch_eq {V : Type} (hdr : Bool) (ups : List (String × Option (UploadFile V))) :
    processBatch hdr ups =
      ((ups.map (fileBlocks hdr)).flatten, ups.filterMap (fileError hdr)) := by
  unfold processBatch
  rw [processBatch_go]
  simp

lemma fileBlocks_none {V : Type} (hdr : Bool) (cond : String) :
    fileBlocks hdr ((cond, none) : String × Option (UploadFile V)) = [] := rfl

lemma fileBlocks_some {V : Type} (hdr : Bool) (cond : String) (f : UploadFile V) :
    fileBlocks hdr (cond, some f) = (processFile hdr cond f).1 := rfl

lemma fileError_some_rec {V : Type} {hdr : Bool} {cond : String} {f : UploadFile V}
    {e : String} (h : (processFile hdr cond f).2 = some e) :
    fileError hdr (cond, some f) = some (cond, f.name, e) := by
  show (processFile hdr cond f).2.map (fun e => (cond, f.name, e)) = some (cond, f.name, e)
  rw [h]
  rfl

/-- C7: each per-file failure — a rejected or unparsable file, a
duplicate-column ValueError from inserting `Condition`/`Block`, or a
melt failure — is caught at that file's boundary and recorded as a
(condition label, file name, reason) record, processing continuing with
the remaining files (the error list covers the whole batch in order);
and the batch's nothing-to-export condition — the empty wide-result
list, checked separately from the error list — holds exactly when no
present file contributed a wide block. -/
theorem processBatch_error_isolation_spec {V : Type} (hdr : Bool)
    (ups : List (String × Option (UploadFile V))) :
    (processBatch hdr ups).2 = ups.filterMap (fileError hdr) ∧
    (∀ p ∈ ups, ∀ f : UploadFile V, p.2 = some f → ∀ e,
      (processFile hdr p.1 f).2 = some e → fileError hdr p = some (p.1, f.name, e)) ∧
    ((processBatch hdr ups).1 = [] ↔
      ∀ p ∈ ups, ∀ f : UploadFile V, p.2 = some f → (processFile hdr p.1 f).1 = []) := by
  refine ⟨by rw [processBatch_eq], ?_, ?_⟩
  · intro p _ f hf e he
    obtain ⟨cond, up⟩ := p
    have hup : up = some f := hf
    subst hup
    exact fileError_some_rec he
  · rw [processBatch_eq]
    simp only [List.flatten_eq_nil_iff]
    constructor
    · intro hall p hp f hf
      obtain ⟨cond, up⟩ := p
      have hup : up = some f := hf
      subst hup
      have hb : fileBlocks hdr (cond, some f) = [] :=
        hall _ (List.mem_map_of_mem _ hp)
      rw [fileBlocks_some] at hb
      exact hb
    · intro hall l hl
      rcases List.mem_map.mp hl with ⟨p, hp, hfb⟩
      obtain ⟨cond, up⟩ := p
      rcases up with _ | f
      · rw [← hfb, fileBlocks_none]
      · rw [← hfb, fileBlocks_some]
        exact hall (cond, some f) hp f rfl

/-- Witness for C7 at a concrete batch: a clash-free csv file, a
rejected pdf file and an absent upload; the error list records exactly
the pdf failure as a (condition, file, reason) triple. -/
theorem processBatch_error_isolation_spec_witness :
    (processBatch true
      [("c1", some (UploadFile.mk "good.csv" (.ok (Table.mk ["a"] ([[1]] : List (List Nat)))))),
       ("c2", some (UploadFile.mk "bad.pdf" (.ok (Table.mk ["a"] ([[1]] : List (List Nat)))))),
       ("c3", none)]).2 =
      [("c2", "bad.pdf", "Formato não suportado: bad.pdf")] ∧
    fileError true
      ("c2", some (UploadFile.mk "bad.pdf" (.ok (Table.mk ["a"] ([[1]] : List (List Nat)))))) =
      some ("c2", "bad.pdf", "Formato não suportado: bad.pdf") :=
  ⟨by
    rw [(processBatch_error_isolation_spec true
      [("c1", some (UploadFile.mk "good.csv" (.ok (Table.mk ["a"] ([[1]] : List (List Nat)))))),
       ("c2", some (UploadFile.mk "bad.pdf" (.ok (Table.mk ["a"] ([[1]] : List (List Nat)))))),
       ("c3", none)]).1]
    decide,
   (processBatch_error_isolation_spec true
      [("c1", some (UploadFile.mk "good.csv" (.ok (Table.mk ["a"] ([[1]] : List (List Nat)))))),
       ("c2", some (UploadFile.mk "bad.pdf" (.ok (Table.mk ["a"] ([[1]] : List (List Nat)))))),
       ("c3", none)]).2.1
     ("c2", some (UploadFile.mk "bad.pdf" (.ok (Table.mk ["a"] ([[1]] : List (List Nat))))))
     (by decide)
     (UploadFile.mk "bad.pdf" (.ok (Table.mk ["a"] ([[1]] : List (List Nat))))) rfl
     "Formato não suportado: bad.pdf" (by decide)⟩

lemma consolidatedRows_flatten {V : Type} (A : List (List (Table V))) :
    consolidatedRows A.flatten = (A.map (fun bs => consolidatedRows bs)).flatten := by
  induction A with
  | nil => rfl
  | cons bs rest ih =>
    simp only [List.flatten_cons, List.map_cons]
    show consolidatedRows (bs ++ rest.flatten) = _
    unfold consolidatedRows
    rw [List.map_append, List.flatten_append]
    exact congrArg _ ih

/-- C8: the consolidated wide result's rows are exactly the rows of the
per-file blocks, concatenated in the order the files were supplied
(insertion order, no re-sorting), and every row of a file's blocks
starts with the provenance tag of that file's condition label. -/
theorem processBatch_order_provenance_spec {V : Type} (hdr : Bool)
    (ups : List (String × Option (UploadFile V))) :
    consolidatedRows (processBatch hdr ups).1 =
      (ups.map (fun p => consolidatedRows (fileBlocks hdr p))).flatten ∧
    (∀ p ∈ ups, ∀ t ∈ fileBlocks hdr p, ∀ r ∈ t.rows,
      r.head? = some (PCell.str p.1)) := by
  constructor
  · rw [processBatch_eq]
    simp only
    rw [consolidatedRows_flatten, List.map_map]
    rfl
  · intro p _ t ht r hr
    obtain ⟨cond, up⟩ := p
    rcases up with _ | f
    · rw [fileBlocks_none] at ht
      exact absurd ht (by simp)
    · rw [fileBlocks_some] at ht
      rcases hrd : read_any_table f with e | df
      · rw [processFile_read_err hrd] at ht
        exact absurd ht (by simp)
      · rw [processFile_read_ok hrd] at ht
        exact processBlocks_mem_tagged hdr cond df t ht r hr

/-- Witness for C8 on a concrete two-file batch. -/
theorem processBatch_order_provenance_spec_witness :
    consolidatedRows
      (processBatch true
        [("c1", some (UploadFile.mk "f1.csv" (.ok (Table.mk ["a"] ([[1]] : List (List Nat)))))),
         ("c2", some (UploadFile.mk "f2.csv" (.ok (Table.mk ["a"] ([[2]] : List (List Nat))))))]).1 =
      ([("c1", some (UploadFile.mk "f1.csv" (.ok (Table.mk ["a"] ([[1]] : List (List Nat)))))),
        ("c2", some (UploadFile.mk "f2.csv" (.ok (Table.mk ["a"] ([[2]] : List (List Nat))))))].map
        (fun p => consolidatedRows (fileBlocks true p))).flatten ∧
    ([PCell.str "c1", PCell.str "F2:H6"] : List (PCell Nat)).head? =
      some (PCell.str "c1") :=
  ⟨(processBatch_order_provenance_spec true
      [("c1", some (UploadFile.mk "f1.csv" (.ok (Table.mk ["a"] ([[1]] : List (List Nat)))))),
       ("c2", some (UploadFile.mk "f2.csv" (.ok (Table.mk ["a"] ([[2]] : List (List Nat))))))]).1,
   (processBatch_order_provenance_spec true
      [("c1", some (UploadFile.mk "f1.csv" (.ok (Table.mk ["a"] ([[1]] : List (List Nat)))))),
       ("c2", some (UploadFile.mk "f2.csv" (.ok (Table.mk ["a"] ([[2]] : List (List Nat))))))]).2
     ("c1", some (UploadFile.mk "f1.csv" (.ok (Table.mk ["a"] ([[1]] : List (List Nat))))))
     (by decide)
     (Table.mk ["Condition", "Block"]
       ([[PCell.str "c1", PCell.str "F2:H6"]] : List (List (PCell Nat))))
     (by decide)
     ([PCell.str "c1", PCell.str "F2:H6"] : List (PCell Nat))
     (by decide)⟩

/-- C9: spec-modelled named-column extraction; when every required name
occurs (after normalization) among the table's normalized column names
it succeeds with exactly the required columns, named exactly as
requested and in the requested order, with the same row count as the
input; when at least one is absent it fails with the complete list of
absent names, not a subset. -/
theorem extract_named_columns_missing_spec {V : Type} [Inhabited V] (t : Table V)
    (L : List String) :
    ((∀ r ∈ L, sanitize_condition_label r ∈ t.cols.map sanitize_condition_label) →
      ∃ t', extract_named_columns t L = .ok t' ∧ t'.cols = L ∧
        t'.rows.length = t.rows.length) ∧
    ((∃ r ∈ L, sanitize_condition_label r ∉ t.cols.map sanitize_condition_label) →
      ∃ miss, extract_named_columns t L = .error miss ∧
        ∀ x, x ∈ miss ↔
          (x ∈ L ∧ sanitize_condition_label x ∉ t.cols.map sanitize_condition_label)) := by
  constructor
  · intro hall
    have hmiss : L.filter
        (fun r => !((t.cols.map sanitize_condition_label).contains
          (sanitize_condition_label r))) = [] := by
      rw [List.filter_eq_nil_iff]
      intro a ha
      simp only [Bool.not_eq_true', Bool.not_eq_false]
      exact (contains_iff_mem_str _ _).mpr (hall a ha)
    refine ⟨Table.mk L (t.rows.map (fun row => L.map (fun r =>
        match lastMatchIdx (t.cols.map sanitize_condition_label)
            (sanitize_condition_label r) with
        | some i => row.getD i default
        | none => default))), ?_, rfl, by simp⟩
    simp only [extract_named_columns]
    rw [hmiss]
    rfl
  · intro hex
    have hne : L.filter
        (fun r => !((t.cols.map sanitize_condition_label).contains
          (sanitize_condition_label r))) ≠ [] := by
      rcases hex with ⟨r, hrL, hrm⟩
      intro hnil
      have hin : r ∈ L.filter
          (fun r => !((t.cols.map sanitize_condition_label).contains
            (sanitize_condition_label r))) := by
        rw [List.mem_filter]
        refine ⟨hrL, ?_⟩
        simp only [Bool.not_eq_true']
        rw [← Bool.not_eq_true]
        intro hc
        exact hrm ((contains_iff_mem_str _ _).mp hc)
      rw [hnil] at hin
      exact absurd hin (by simp)
    refine ⟨L.filter
      (fun r => !((t.cols.map sanitize_condition_label).contains
        (sanitize_condition_label r))), ?_, ?_⟩
    · simp only [extract_named_columns]
      rw [if_neg (by rwa [List.isEmpty_iff])]
    · intro x
      rw [List.mem_filter]
      constructor
      · rintro ⟨hxL, hxp⟩
        refine ⟨hxL, ?_⟩
        simp only [Bool.not_eq_true'] at hxp
        intro hc
        rw [(contains_iff_mem_str _ _).mpr hc] at hxp
        exact absurd hxp (by simp)
      · rintro ⟨hxL, hxm⟩
        refine ⟨hxL, ?_⟩
        simp only [Bool.not_eq_true']
        rw [← Bool.not_eq_true]
        intro hc
        exact hxm ((contains_iff_mem_str _ _).mp hc)

/-- Witness for C9: a table with columns whose normalized names cover
the request succeeds with the requested schema; a request with an
absent name fails listing exactly the absent names. -/
theorem extract_named_columns_missing_spec_witness :
    (∃ t', extract_named_columns
        (Table.mk ["  Nome ", "Idade"] ([[1, 2], [3, 4]] : List (List Nat)))
        ["Nome"] = .ok t' ∧ t'.cols = ["Nome"] ∧ t'.rows.length = 2) ∧
    (∃ miss, extract_named_columns
        (Table.mk ["  Nome ", "Idade"] ([[1, 2], [3, 4]] : List (List Nat)))
        ["Nome", "Peso", "Altura"] = .error miss ∧
      ∀ x, x ∈ miss ↔
        (x ∈ ["Nome", "Peso", "Altura"] ∧
          sanitize_condition_label x ∉
            (Table.mk ["  Nome ", "Idade"]
              ([[1, 2], [3, 4]] : List (List Nat))).cols.map sanitize_condition_label)) :=
  ⟨(extract_named_columns_missing_spec
      (Table.mk ["  Nome ", "Idade"] ([[1, 2], [3, 4]] : List (List Nat))) ["Nome"]).1
    (by decide),
   (extract_named_columns_missing_spec
      (Table.mk ["  Nome ", "Idade"] ([[1, 2], [3, 4]] : List (List Nat)))
      ["Nome", "Peso", "Altura"]).2 (by decide)⟩

lemma collapseWs_cons_neg {c : Char} {cs : List Char} (h : pyIsSpace c = false) :
    collapseWs (c :: cs) = c :: collapseWs cs := by
  rw [collapseWs, if_neg]
  simp [h]

lemma collapseWs_cons_pos {c : Char} {cs : List Char} (h : pyIsSpace c = true) :
    collapseWs (c :: cs) = ' ' :: skipRun cs := by
  simp [collapseWs, h]

lemma wordsWs_cons_pos {c : Char} {cs : List Char} (h : pyIsSpace c = true) :
    wordsWs (c :: cs) = wordsWs cs := by
  rw [wordsWs]
  simp [h]

lemma wordsWs_cons_neg {c : Char} {cs : List Char} (h : pyIsSpace c = false) :
    wordsWs (c :: cs) =
      (c :: cs.takeWhile (fun x => !(pyIsSpace x))) ::
        wordsWs (cs.dropWhile (fun x => !(pyIsSpace x))) := by
  rw [wordsWs]
  simp [h]

lemma collapseWs_nonspace_append {w : List Char} (t : List Char)
    (h : ∀ c ∈ w, pyIsSpace c = false) :
    collapseWs (w ++ t) = w ++ collapseWs t := by
  induction w with
  | nil => rfl
  | cons c w' ih =>
    rw [List.cons_append, collapseWs_cons_neg (h c (List.mem_cons_self c w')),
      ih (fun x hx => h x (List.mem_cons_of_mem c hx))]
    rfl

lemma skipRun_eq_collapseWs_dropWhile (l : List Char) :
    skipRun l = collapseWs (l.dropWhile pyIsSpace) := by
  induction l with
  | nil => rfl
  | cons c cs ih =>
    rcases hc : pyIsSpace c with _ | _
    · rw [skipRun, if_neg (by simp [hc]), List.dropWhile_cons, if_neg (by simp [hc]),
        collapseWs_cons_neg hc]
    · rw [skipRun, if_pos (by simp [hc]), List.dropWhile_cons, if_pos (by simp [hc]), ih]

lemma wordsWs_nil : wordsWs [] = [] := by
  rw [wordsWs]

lemma wordsWs_of_all_space {l : List Char} (h : ∀ c ∈ l, pyIsSpace c = true) :
    wordsWs l = [] := by
  induction l with
  | nil => exact wordsWs_nil
  | cons c cs ih =>
    rw [wordsWs_cons_pos (h c (List.mem_cons_self c cs))]
    exact ih (fun x hx => h x (List.mem_cons_of_mem c hx))

lemma wordsWs_ne_nil {l : List Char} (h : ∃ c ∈ l, pyIsSpace c = false) :
    wordsWs l ≠ [] := by
  induction l with
  | nil => rcases h with ⟨c, hc, _⟩; exact absurd hc (by simp)
  | cons c cs ih =>
    rcases hc : pyIsSpace c with _ | _
    · rw [wordsWs_cons_neg hc]
      simp
    · rw [wordsWs_cons_pos hc]
      apply ih
      rcases h with ⟨x, hx, hxf⟩
      rcases List.mem_cons.mp hx with hx | hx
      · rw [hx] at hxf
        rw [hxf] at hc
        exact absurd hc (by simp)
      · exact ⟨x, hx, hxf⟩

lemma rdropWhile_eq_self_of_nonspace {l : List Char}
    (h : ∀ c ∈ l, pyIsSpace c = false) : l.rdropWhile pyIsSpace = l := by
  rw [List.rdropWhile_eq_self_iff]
  intro hl
  simp [h _ (List.getLast_mem hl)]

lemma rdropWhile_append_all_space {a b : List Char}
    (h : ∀ c ∈ b, pyIsSpace c = true) :
    (a ++ b).rdropWhile pyIsSpace = a.rdropWhile pyIsSpace := by
  unfold List.rdropWhile
  rw [List.reverse_append, List.dropWhile_append]
  have hb : b.reverse.dropWhile pyIsSpace = [] := by
    rw [List.dropWhile_eq_nil_iff]
    intro x hx
    simp [h x (List.mem_reverse.mp hx)]
  rw [hb]
  simp

lemma rdropWhile_append_has_nonspace {a b : List Char}
    (h : ∃ c ∈ b, pyIsSpace c = false) :
    (a ++ b).rdropWhile pyIsSpace = a ++ b.rdropWhile pyIsSpace := by
  unfold List.rdropWhile
  rw [List.reverse_append, List.dropWhile_append]
  have hb : b.reverse.dropWhile pyIsSpace ≠ [] := by
    rw [ne_eq, List.dropWhile_eq_nil_iff]
    intro hall
    rcases h with ⟨c, hc, hcf⟩
    have := hall c (List.mem_reverse.mpr hc)
    rw [hcf] at this
    exact absurd this (by simp)
  rw [if_neg (by simpa using hb)]
  rw [List.reverse_append, List.reverse_reverse]

lemma dropWhile_head_false {q : Char → Bool} :
    ∀ {l : List Char} {d : Char} {ds : List Char}, l.dropWhile q = d :: ds → q d = false := by
  intro l
  induction l with
  | nil => intro d ds h; exact absurd h (by simp)
  | cons x xs ih =>
    intro d ds h
    rw [List.dropWhile_cons] at h
    by_cases hq : q x = true
    · rw [if_pos hq] at h
      exact ih h
    · rw [if_neg hq] at h
      obtain ⟨hxd, _⟩ := List.cons.inj h
      rw [← hxd]
      simpa using hq

lemma prefix_head_eq {l₁ l₂ : List Char} (h : l₁ <+: l₂) (hne : l₁ ≠ []) :
    l₂.head? = l₁.head? := by
  rcases h with ⟨t, ht⟩
  rcases l₁ with _ | ⟨a, as⟩
  · exact absurd rfl hne
  · rw [← ht]
    rfl

lemma dropWhile_rdropWhile_comm (l : List Char) :
    (l.rdropWhile pyIsSpace).dropWhile pyIsSpace =
      (l.dropWhile pyIsSpace).rdropWhile pyIsSpace := by
  rcases hv : l.dropWhile pyIsSpace with _ | ⟨d, ds⟩
  · have hall : ∀ c ∈ l, pyIsSpace c = true := by
      rw [← List.dropWhile_eq_nil_iff]
      exact hv
    have h1 : l.rdropWhile pyIsSpace = [] := List.rdropWhile_eq_nil_iff.mpr hall
    rw [h1, List.rdropWhile_nil]
    rfl
  · have hd : pyIsSpace d = false := dropWhile_head_false hv
    have hu : ∀ c ∈ l.takeWhile pyIsSpace, pyIsSpace c = true :=
      fun c hc => List.mem_takeWhile_imp hc
    have hex : ∃ c ∈ d :: ds, pyIsSpace c = false := ⟨d, List.mem_cons_self d ds, hd⟩
    have hA : l.rdropWhile pyIsSpace =
        l.takeWhile pyIsSpace ++ (d :: ds).rdropWhile pyIsSpace := by
      conv_lhs => rw [← List.takeWhile_append_dropWhile (p := pyIsSpace) (l := l)]
      rw [hv]
      exact rdropWhile_append_has_nonspace hex
    rw [hA, List.dropWhile_append]
    have htw : (l.takeWhile pyIsSpace).dropWhile pyIsSpace = [] := by
      rw [List.dropWhile_eq_nil_iff]
      exact hu
    rw [htw]
    simp only [List.isEmpty_nil, if_true]
    rcases hw : (d :: ds).rdropWhile pyIsSpace with _ | ⟨w0, ws⟩
    · rfl
    · have hpre : w0 :: ws <+: d :: ds :=
        hw ▸ List.rdropWhile_prefix pyIsSpace (d :: ds)
      have hh : (d :: ds).head? = (w0 :: ws).head? :=
        prefix_head_eq hpre (by simp)
      have hw0 : w0 = d := by
        simpa using hh.symm
      rw [List.dropWhile_cons, hw0, hd]
      simp

lemma joinWords_cons_ne_nil (w : List Char) {ws : List (List Char)} (h : ws ≠ []) :
    joinWords (w :: ws) = w ++ ' ' :: joinWords ws := by
  rcases ws with _ | ⟨w1, ws'⟩
  · exact absurd rfl h
  · rfl

lemma collapseWs_nil : collapseWs [] = [] := rfl

lemma collapse_strip_eq_join :
    ∀ (n : Nat) (l : List Char), l.length ≤ n →
      collapseWs (stripWs l) = joinWords (wordsWs l) := by
  intro n
  induction n with
  | zero =>
    intro l hl
    have hnil : l = [] := List.eq_nil_of_length_eq_zero (Nat.le_zero.mp hl)
    subst hnil
    rw [wordsWs_nil]
    rfl
  | succ n ih =>
    intro l hl
    rcases l with _ | ⟨c, cs⟩
    · rw [wordsWs_nil]
      rfl
    · have hcslen : cs.length ≤ n := by
        simp only [List.length_cons] at hl
        omega
      rcases hc : pyIsSpace c with _ | _
      · -- c is not whitespace: it starts the first word
        have hw : ∀ x ∈ cs.takeWhile (fun x => !(pyIsSpace x)), pyIsSpace x = false := by
          intro x hx
          have := List.mem_takeWhile_imp hx
          simpa using this
        have hcw : ∀ x ∈ c :: cs.takeWhile (fun x => !(pyIsSpace x)),
            pyIsSpace x = false := by
          intro x hx
          rcases List.mem_cons.mp hx with hx | hx
          · rw [hx]; exact hc
          · exact hw x hx
        have hstrip : stripWs (c :: cs) =
            ((c :: cs.takeWhile (fun x => !(pyIsSpace x))) ++
              cs.dropWhile (fun x => !(pyIsSpace x))).rdropWhile pyIsSpace := by
          unfold stripWs
          rw [List.dropWhile_cons, if_neg (by simp [hc])]
          conv_lhs => rw [← List.takeWhile_append_dropWhile
            (p := fun x => !(pyIsSpace x)) (l := cs)]
          rfl
        rw [wordsWs_cons_neg hc, hstrip]
        by_cases hr : ∀ x ∈ cs.dropWhile (fun x => !(pyIsSpace x)), pyIsSpace x = true
        · -- everything after the first word is whitespace
          rw [rdropWhile_append_all_space hr, rdropWhile_eq_self_of_nonspace hcw,
            wordsWs_of_all_space hr]
          have h2 := collapseWs_nonspace_append
            (w := c :: cs.takeWhile (fun x => !(pyIsSpace x))) [] hcw
          simp only [List.append_nil, collapseWs_nil] at h2
          rw [h2]
          rfl
        · -- another word follows: a whitespace run then more characters
          have hex : ∃ x ∈ cs.dropWhile (fun x => !(pyIsSpace x)),
              pyIsSpace x = false := by
            push_neg at hr
            rcases hr with ⟨x, hx, hxf⟩
            exact ⟨x, hx, by simpa using hxf⟩
          rcases hrshape : cs.dropWhile (fun x => !(pyIsSpace x)) with _ | ⟨d, ds⟩
          · rw [hrshape] at hex
            rcases hex with ⟨x, hx, _⟩
            exact absurd hx (by simp)
          · have hd : pyIsSpace d = true := by
              have hdf := dropWhile_head_false hrshape
              simpa using hdf
            have hexds : ∃ x ∈ ds, pyIsSpace x = false := by
              rw [hrshape] at hex
              rcases hex with ⟨x, hx, hxf⟩
              rcases List.mem_cons.mp hx with hx | hx
              · rw [hx] at hxf
                rw [hxf] at hd
                exact absurd hd (by simp)
              · exact ⟨x, hx, hxf⟩
            have hdslen : ds.length ≤ n := by
              have hsub := (List.dropWhile_sublist (l := cs)
                (fun x => !(pyIsSpace x))).length_le
              rw [hrshape] at hsub
              simp only [List.length_cons] at hsub
              omega
            rw [wordsWs_cons_pos hd, joinWords_cons_ne_nil _ (wordsWs_ne_nil hexds)]
            have hexr : ∃ x ∈ d :: ds, pyIsSpace x = false := by
              rcases hexds with ⟨x, hx, hxf⟩
              exact ⟨x, List.mem_cons_of_mem d hx, hxf⟩
            rw [rdropWhile_append_has_nonspace hexr]
            have hrd : (d :: ds).rdropWhile pyIsSpace =
                d :: ds.rdropWhile pyIsSpace := by
              have h3 := rdropWhile_append_has_nonspace (a := [d]) (b := ds) hexds
              simpa using h3
            rw [hrd, collapseWs_nonspace_append _ hcw, collapseWs_cons_pos hd,
              skipRun_eq_collapseWs_dropWhile, dropWhile_rdropWhile_comm]
            have hih := ih ds hdslen
            unfold stripWs at hih
            rw [hih]
      · -- c is whitespace: it is stripped and skipped
        have hstrip : stripWs (c :: cs) = stripWs cs := by
          unfold stripWs
          rw [List.dropWhile_cons, if_pos (by simp [hc])]
        rw [hstrip, wordsWs_cons_pos hc]
        exact ih cs hcslen

/-- C5: the name-normalization function is a pure function equal, on
every input string, to the string's whitespace-separated words joined by
single spaces: leading and trailing whitespace removed, every internal
whitespace run collapsed to one space, and all other characters (case,
punctuation) preserved in order. -/
theorem sanitize_condition_label_spec (s : String) :
    sanitize_condition_label s = specNormalize s := by
  unfold sanitize_condition_label specNormalize
  exact congrArg String.mk (collapse_strip_eq_join s.data.length s.data le_rfl)
